import Mathlib

/-!
Shallow embedding of `src/ucd_to_harness.py` (UCD → Harness converter).

JSON values loaded by `json.load` are modelled by the inductive type
`JValue`; Python dicts become association lists with unique keys in
insertion order.  JSON numbers are modelled as integers (no claim in this
development depends on float behaviour).  Each Python helper of the script
is translated to a Lean function of the same name where possible.
-/

set_option autoImplicit false

namespace UcdToHarness

/-- JSON value, as produced by Python's `json.load`. -/
inductive JValue where
  | null : JValue
  | bool (b : Bool) : JValue
  | num (n : Int) : JValue
  | str (s : String) : JValue
  | arr (xs : List JValue) : JValue
  | obj (kvs : List (String × JValue)) : JValue

/-- A Python dict loaded from JSON: key/value pairs in insertion order. -/
abbrev JObj := List (String × JValue)

/-- Python `d.get(k)`: first entry with the given key (dict keys are unique). -/
def pyGet (kvs : JObj) (k : String) : Option JValue :=
  match kvs with
  | [] => none
  | (k', v) :: rest => if k' = k then some v else pyGet rest k

/-- Python `k in d` for a dict. -/
def pyHasKey (kvs : JObj) (k : String) : Bool :=
  (pyGet kvs k).isSome

/-- Python truthiness of a JSON-derived value (`bool(v)`). -/
def truthy : JValue → Bool
  | .null => false
  | .bool b => b
  | .num n => n != 0
  | .str s => s ≠ ""
  | .arr xs => !xs.isEmpty
  | .obj kvs => !kvs.isEmpty

/-- A chain `a or b or ... or dflt` of Python `or` over optional dict lookups:
the first truthy value wins, otherwise the default. -/
def pyOrD (opts : List (Option JValue)) (dflt : JValue) : JValue :=
  match opts with
  | [] => dflt
  | o :: rest =>
    match o with
    | some v => if truthy v then v else pyOrD rest dflt
    | none => pyOrD rest dflt

/-- Python `s.lower()` (ASCII case folding, as used on the ASCII data here). -/
def pyLower (s : String) : String :=
  ⟨s.data.map Char.toLower⟩

/-- Python `needle in hay` for strings: contiguous substring test. -/
def pySubstr (needle hay : String) : Bool :=
  decide (needle.data <:+: hay.data)

/-- Characters stripped by Python `str.strip()` (common whitespace). -/
def isPySpace (c : Char) : Bool :=
  c = ' ' || c = '\t' || c = '\n' || c = '\r' || c = '\x0b' || c = '\x0c'

/-- Python `s.strip()`. -/
def pyStrip (s : String) : String :=
  ⟨((s.data.dropWhile isPySpace).reverse.dropWhile isPySpace).reverse⟩

mutual
/-- Python `repr` of a JSON-derived value (element rendering inside
containers); quote escaping inside strings is elided, which is irrelevant
to every property proved below. -/
def pyRepr : JValue → String
  | .null => "None"
  | .bool true => "True"
  | .bool false => "False"
  | .num n => toString n
  | .str s => "'" ++ s ++ "'"
  | .arr xs => "[" ++ pyReprList xs ++ "]"
  | .obj kvs => "\x7b" ++ pyReprObj kvs ++ "\x7d"

def pyReprList : List JValue → String
  | [] => ""
  | [x] => pyRepr x
  | x :: y :: rest => pyRepr x ++ ", " ++ pyReprList (y :: rest)

def pyReprObj : List (String × JValue) → String
  | [] => ""
  | [(k, v)] => "'" ++ k ++ "': " ++ pyRepr v
  | (k, v) :: p :: rest => "'" ++ k ++ "': " ++ pyRepr v ++ ", " ++ pyReprObj (p :: rest)
end

/-- Python `str(v)` for a JSON-derived value. -/
def pyStr : JValue → String
  | .str s => s
  | v => pyRepr v

/-- One hexadecimal digit (lowercase), as in Python's `\uXXXX` escapes. -/
def hexDigit (n : Nat) : Char :=
  if n < 10 then Char.ofNat (48 + n) else Char.ofNat (87 + n)

/-- Four-digit lowercase hex. -/
def hex4 (n : Nat) : String :=
  ⟨[hexDigit (n / 4096 % 16), hexDigit (n / 256 % 16),
    hexDigit (n / 16 % 16), hexDigit (n % 16)]⟩

/-- Escaping of a single character in `json.dumps` (default `ensure_ascii`);
characters beyond the BMP become surrogate pairs. -/
def jsonEscapeChar (c : Char) : String :=
  if c = '"' then "\\\""
  else if c = '\\' then "\\\\"
  else if c = '\n' then "\\n"
  else if c = '\t' then "\\t"
  else if c = '\r' then "\\r"
  else if c = '\x08' then "\\b"
  else if c = '\x0c' then "\\f"
  else if c.toNat < 32 then "\\u" ++ hex4 c.toNat
  else if c.toNat < 127 then String.singleton c
  else if c.toNat < 65536 then "\\u" ++ hex4 c.toNat
  else
    let n := c.toNat - 65536
    "\\u" ++ hex4 (55296 + n / 1024) ++ "\\u" ++ hex4 (56320 + n % 1024)

/-- A JSON string literal as emitted by `json.dumps`. -/
def jsonQuote (s : String) : String :=
  "\"" ++ String.join (s.data.map jsonEscapeChar) ++ "\""

mutual
/-- `json.dumps(v)` with default options: keys in insertion order,
separators `", "` and `": "`. -/
def dumps : JValue → String
  | .null => "null"
  | .bool true => "true"
  | .bool false => "false"
  | .num n => toString n
  | .str s => jsonQuote s
  | .arr xs => "[" ++ dumpsList xs ++ "]"
  | .obj kvs => "\x7b" ++ dumpsObj kvs ++ "\x7d"

def dumpsList : List JValue → String
  | [] => ""
  | [x] => dumps x
  | x :: y :: rest => dumps x ++ ", " ++ dumpsList (y :: rest)

def dumpsObj : List (String × JValue) → String
  | [] => ""
  | [(k, v)] => jsonQuote k ++ ": " ++ dumps v
  | (k, v) :: p :: rest => jsonQuote k ++ ": " ++ dumps v ++ ", " ++ dumpsObj (p :: rest)
end

/-- Insert a pair into a key-sorted association list (Python's `sorted` on
string keys: code-point lexicographic order). -/
def insertByKey (p : String × JValue) : List (String × JValue) → List (String × JValue)
  | [] => [p]
  | q :: rest => if p.1 ≤ q.1 then p :: q :: rest else q :: insertByKey p rest

/-- Sort an association list by key (insertion sort). -/
def sortByKey (kvs : List (String × JValue)) : List (String × JValue) :=
  match kvs with
  | [] => []
  | p :: rest => insertByKey p (sortByKey rest)

mutual
/-- Recursively sort all object keys; `json.dumps(v, sort_keys=True)`
is `dumps (sortKeysDeep v)`. -/
def sortKeysDeep : JValue → JValue
  | .null => .null
  | .bool b => .bool b
  | .num n => .num n
  | .str s => .str s
  | .arr xs => .arr (sortKeysDeepList xs)
  | .obj kvs => .obj (sortByKey (sortKeysDeepObj kvs))

def sortKeysDeepList : List JValue → List JValue
  | [] => []
  | x :: rest => sortKeysDeep x :: sortKeysDeepList rest

def sortKeysDeepObj : List (String × JValue) → List (String × JValue)
  | [] => []
  | (k, v) :: rest => (k, sortKeysDeep v) :: sortKeysDeepObj rest
end

/-- `json.dumps(v, sort_keys=True)`. -/
def dumpsSorted (v : JValue) : String :=
  dumps (sortKeysDeep v)

mutual
/-- Structural size of a JSON value, used as termination measure for the
traversal in `flatten_process_steps`. -/
def JValue.size : JValue → Nat
  | .null => 1
  | .bool _ => 1
  | .num _ => 1
  | .str _ => 1
  | .arr xs => 1 + sizeList xs
  | .obj kvs => 1 + sizeObj kvs

def sizeList : List JValue → Nat
  | [] => 0
  | x :: rest => JValue.size x + sizeList rest

def sizeObj : List (String × JValue) → Nat
  | [] => 0
  | (_, v) :: rest => JValue.size v + sizeObj rest
end

theorem JValue.size_pos (v : JValue) : 0 < v.size := by
  cases v <;> simp [JValue.size]

theorem size_le_sizeObj_of_pyGet {kvs : JObj} {k : String} {v : JValue}
    (h : pyGet kvs k = some v) : v.size ≤ sizeObj kvs := by
  induction kvs with
  | nil => simp [pyGet] at h
  | cons p rest ih =>
    obtain ⟨k', v'⟩ := p
    by_cases hk : k' = k
    · simp [pyGet, hk] at h
      subst h
      simp [sizeObj]
    · simp [pyGet, hk] at h
      have := ih h
      simp [sizeObj]
      omega

/-!  `pull_name` -/

/-- The key priority list tried by `pull_name`. -/
def nameKeys : List String :=
  ["name", "application", "applicationName", "component", "componentName",
   "environment", "environmentName", "displayName"]

/-- The main loop of `pull_name`: the first key whose value is a string that
is non-empty after `strip()` yields that (un-stripped) string. -/
def firstStrKeyNonEmpty (obj : JObj) : List String → Option String
  | [] => none
  | k :: rest =>
    match pyGet obj k with
    | some (.str s) => if pyStrip s ≠ "" then some s else firstStrKeyNonEmpty obj rest
    | _ => firstStrKeyNonEmpty obj rest

/-- The nested fallback of `pull_name`: first value that is a dict carrying a
string-valued `name` key (no emptiness check in the source). -/
def nestedName : JObj → Option String
  | [] => none
  | (_, v) :: rest =>
    match v with
    | .obj d =>
      match pyGet d "name" with
      | some (.str s) => some s
      | _ => nestedName rest
    | _ => nestedName rest

/-- `pull_name(obj)`; `uuidHex` stands for the `uuid4().hex[:6]` value the
source would draw when reaching the final fallback. -/
def pull_name (obj : JObj) (uuidHex : String) : String :=
  match firstStrKeyNonEmpty obj nameKeys with
  | some s => s
  | none =>
    match nestedName obj with
    | some s => s
    | none => "unnamed-" ++ uuidHex

/-!  `detect_kind` -/

/-- Declared-type fields inspected by layer 1 of `detect_kind`. -/
def typeKeys : List String := ["objectType", "class", "entityType", "type"]

/-- The body of layer 1 on one lower-cased declared-type string. -/
def kindFromTypeStr (v : String) : Option String :=
  if pySubstr "application" v && !pySubstr "template" v then some "application"
  else if pySubstr "component" v && !pySubstr "template" v then some "component"
  else if pySubstr "environment" v then some "environment"
  else if pySubstr "process" v then some "process"
  else none

/-- Layer 1 of `detect_kind`: declared-type fields in priority order; a
string-valued field that matches no kind word falls through to later keys. -/
def kindFromTypeFields (obj : JObj) : List String → Option String
  | [] => none
  | k :: rest =>
    match pyGet obj k with
    | some (.str s) =>
      match kindFromTypeStr (pyLower s) with
      | some r => some r
      | none => kindFromTypeFields obj rest
    | _ => kindFromTypeFields obj rest

/-- Layer 2 of `detect_kind`: path-based hints on the lower-cased path. -/
def kindFromPath (pstr : String) : Option String :=
  if pySubstr "applications" pstr && !pySubstr "process" pstr then some "application"
  else if pySubstr "components" pstr && !pySubstr "template" pstr then some "component"
  else if pySubstr "environments" pstr then some "environment"
  else if pySubstr "process" pstr || pySubstr "processes" pstr then some "process"
  else none

/-- Layer 3 of `detect_kind`: structural key hints. -/
def kindFromKeys (obj : JObj) : String :=
  if pyHasKey obj "components" && pyHasKey obj "environments" then "application"
  else if pyHasKey obj "component" || pyHasKey obj "componentName" then "component"
  else if pyHasKey obj "environment" || pyHasKey obj "environmentName" then "environment"
  else if pyHasKey obj "steps" || pyHasKey obj "rootActivity" then "process"
  else "unknown"

/-- `detect_kind(obj, path)`; `path` is `str(path)` of the source `Path`. -/
def detect_kind (obj : JObj) (path : String) : String :=
  match kindFromTypeFields obj typeKeys with
  | some k => k
  | none =>
    match kindFromPath (pyLower path) with
    | some k => k
    | none => kindFromKeys obj

/-!  `flatten_process_steps` -/

/-- One emitted step descriptor (an element of the `steps` list). -/
structure Step where
  name : String
  description : String
  properties : JObj

/-- The dict appended by `visit` for one node. -/
def mkStep (kvs : JObj) : Step :=
  let step_name := pyOrD [pyGet kvs "name", pyGet kvs "commandName", pyGet kvs "type"] (.str "Step")
  let props := pyOrD [pyGet kvs "properties", pyGet kvs "propDefs"] (.obj [])
  let desc := pyOrD [pyGet kvs "description"] (.str "")
  { name := pyStr step_name
    description := pyStr desc
    properties := match props with | .obj d => d | _ => [] }

/-- The child keys explored by `visit`, in order. -/
def childKeys : List String := ["children", "next", "steps", "activities"]

mutual
/-- The recursive `visit` of `flatten_process_steps`: non-dict nodes are
skipped; a dict node emits its step and then explores `children`, `next`,
`steps`, `activities` in order. -/
def visit (node : JValue) : List Step :=
  match node with
  | .obj kvs => mkStep kvs :: visitChildren kvs childKeys
  | _ => []
termination_by 10 * node.size + 5
decreasing_by
  simp_wf
  simp [JValue.size, childKeys]

/-- The child-key loop of `visit`: a list-valued child visits each element,
a dict-valued child is visited directly, anything else is skipped. -/
def visitChildren (kvs : JObj) (keys : List String) : List Step :=
  match keys with
  | [] => []
  | key :: rest =>
    (match h : pyGet kvs key with
     | some (.arr xs) => visitList xs
     | some (.obj d) => visit (.obj d)
     | _ => []) ++ visitChildren kvs rest
termination_by 10 * (1 + sizeObj kvs) + keys.length
decreasing_by
  all_goals simp_wf
  all_goals try (have hsz := size_le_sizeObj_of_pyGet h; simp [JValue.size] at hsz ⊢)
  all_goals omega

def visitList (xs : List JValue) : List Step :=
  match xs with
  | [] => []
  | x :: rest => visit x ++ visitList rest
termination_by 10 * (1 + sizeList xs)
decreasing_by
  · simp_wf
    simp [sizeList]
    omega
  · simp_wf
    have := JValue.size_pos x
    simp [sizeList]
    omega
end

/-- Dedup key: the pair `(name, json.dumps(properties, sort_keys=True))`. -/
def stepKey (s : Step) : String × String :=
  (s.name, dumpsSorted (.obj s.properties))

/-- The dedup loop at the end of `flatten_process_steps` (`seen` is the
accumulated set of keys). -/
def dedupSteps (seen : List (String × String)) : List Step → List Step
  | [] => []
  | s :: rest =>
    if stepKey s ∈ seen then dedupSteps seen rest
    else s :: dedupSteps (stepKey s :: seen) rest

/-- The `steps` list accumulated by `flatten_process_steps` before dedup:
entry-point selection over `rootActivity` (must be a dict), `steps` (must be
a list), `activities` (must be a list), else the whole object as one step. -/
def rawSteps (obj : JObj) : List Step :=
  match pyGet obj "rootActivity" with
  | some (.obj d) => visit (.obj d)
  | _ =>
    match pyGet obj "steps" with
    | some (.arr l) => visitList l
    | _ =>
      match pyGet obj "activities" with
      | some (.arr l) => visitList l
      | _ => visit (.obj obj)

/-- `flatten_process_steps(obj)`. -/
def flatten_process_steps (obj : JObj) : List Step :=
  dedupSteps [] (rawSteps obj)

/-- Python `isinstance(v, dict)` for a JSON-derived value. -/
def JValue.isDict : JValue → Bool
  | .obj _ => true
  | _ => false

/-!  `main`: indexing of scanned objects by kind and name -/

/-- Generic association-list lookup (Python dict access for the maps built
in `main`). -/
def lookupA {α : Type} (m : List (String × α)) (k : String) : Option α :=
  match m with
  | [] => none
  | (k', v) :: rest => if k' = k then some v else lookupA rest k

/-- Python dict assignment `m[k] = v`: replace the existing entry in place,
else append a new entry. -/
def dictSet {α : Type} (m : List (String × α)) (k : String) (v : α) : List (String × α) :=
  match m with
  | [] => [(k, v)]
  | (k', v') :: rest => if k' = k then (k, v) :: rest else (k', v') :: dictSet rest k v

/-- Python `m.setdefault(k, v)` (result map only). -/
def dictSetdefault {α : Type} (m : List (String × α)) (k : String) (v : α) :
    List (String × α) :=
  if (lookupA m k).isSome then m else m ++ [(k, v)]

/-- The four collections built by the indexing loop of `main`. -/
structure Buckets where
  applications : List (String × JObj)
  components : List (String × JObj)
  environments : List (String × JObj)
  processes : List (String × JObj)

/-- One scanned file: its path, its JSON object, and the `uuid4().hex[:6]`
value `pull_name` would draw for it on the unnamed fallback. -/
structure Item where
  path : String
  obj : JObj
  uuidHex : String

/-- One iteration of the indexing loop of `main`. -/
def classifyStep (acc : Buckets) (it : Item) : Buckets :=
  let kind := detect_kind it.obj it.path
  let name := pull_name it.obj it.uuidHex
  if kind = "application" then
    { acc with applications := dictSet acc.applications name it.obj }
  else if kind = "component" then
    { acc with components := dictSetdefault acc.components name it.obj }
  else if kind = "environment" then
    { acc with environments := dictSetdefault acc.environments name it.obj }
  else if kind = "process" then
    { acc with processes := acc.processes ++ [(name, it.obj)] }
  else acc

/-- The indexing loop of `main` over all scanned items. -/
def classify (items : List Item) : Buckets :=
  items.foldl classifyStep ⟨[], [], [], []⟩

/-!  `main`: process-to-owner association -/

/-- The owner resolved for a process: either an application or a component,
by name. -/
inductive Owner where
  | app (name : String)
  | comp (name : String)
deriving DecidableEq, Repr

/-- First key among `keys` present in `pobj` with a string value (any
string, the source checks `isinstance(..., str)` only). -/
def firstStrField (pobj : JObj) : List String → Option String
  | [] => none
  | k :: rest =>
    match pyGet pobj k with
    | some (.str s) => some s
    | _ => firstStrField pobj rest

/-- Owner resolution for one process in `main`'s association loop: the two
explicit-field loops (the second one runs unconditionally), then the
substring heuristics over application and component names.  `apps` and
`comps` are the key lists of the `applications`/`components` dicts. -/
def ownerOf (pobj : JObj) (pname : String) (apps comps : List String) : Option Owner :=
  let text := pyLower (dumps (.obj pobj))
  let owner : Option Owner := none
  let owner : Option Owner :=
    match firstStrField pobj ["application", "applicationName"] with
    | some s => some (.app s)
    | none => owner
  let owner : Option Owner :=
    match firstStrField pobj ["component", "componentName"] with
    | some s => some (.comp s)
    | none => owner
  let owner : Option Owner :=
    match owner with
    | some o => some o
    | none =>
      match apps.find? (fun a => pySubstr (pyLower a) (pyLower pname ++ " " ++ text)) with
      | some a => some (.app a)
      | none => none
  let owner : Option Owner :=
    match owner with
    | some o => some o
    | none =>
      match comps.find? (fun c => pySubstr (pyLower c) (pyLower pname ++ " " ++ text)) with
      | some c => some (.comp c)
      | none => none
  owner

/-- The two step maps accumulated by the association loop. -/
structure Assoc where
  appMap : List (String × List Step)
  compMap : List (String × List Step)

/-- `m.setdefault(k, []).extend(steps)`: append to the entry in place, or
append a new entry at the end. -/
def mapExtend (m : List (String × List Step)) (k : String) (steps : List Step) :
    List (String × List Step) :=
  match m with
  | [] => [(k, steps)]
  | (k', v) :: rest =>
    if k' = k then (k', v ++ steps) :: rest else (k', v) :: mapExtend rest k steps

/-- One iteration of the association loop of `main`. -/
def assocStep (apps comps : List String) (acc : Assoc) (pr : String × JObj) : Assoc :=
  let steps := flatten_process_steps pr.2
  match ownerOf pr.2 pr.1 apps comps with
  | some (.app a) => { acc with appMap := mapExtend acc.appMap a steps }
  | some (.comp c) => { acc with compMap := mapExtend acc.compMap c steps }
  | none => acc

/-- The association loop of `main` over all processes; the maps start with
one empty entry per known application/component. -/
def associate (apps comps : List String) (processes : List (String × JObj)) : Assoc :=
  processes.foldl (assocStep apps comps)
    ⟨apps.map (fun a => (a, [])), comps.map (fun c => (c, []))⟩

/-!  `main`: service derivation per application -/

/-- Names collected from one entry of a component list in `main`. -/
def compEntryNames (it : JValue) : List String :=
  match it with
  | .obj d =>
    let nm := pyOrD [pyGet d "name", pyGet d "component", pyGet d "componentName"] .null
    if truthy nm then [pyStr nm] else []
  | .str s => [s]
  | _ => []

/-- Collection over one component list. -/
def collectFromList (xs : List JValue) : List String :=
  match xs with
  | [] => []
  | x :: rest => compEntryNames x ++ collectFromList rest

/-- The keys scanned for component lists in `main`. -/
def compListKeys : List String := ["components", "componentList", "applicationComponents"]

/-- Collection over the three component-list keys, in order. -/
def collectedComps (aobj : JObj) : List String → List String
  | [] => []
  | k :: rest =>
    (match pyGet aobj k with
     | some (.arr xs) => collectFromList xs
     | _ => []) ++ collectedComps aobj rest

/-- Service list derived for one application: the collected names, or all
known component names when nothing was collected. -/
def app_services (aobj : JObj) (allCompNames : List String) : List String :=
  let comps := collectedComps aobj compListKeys
  if comps = [] then allCompNames else comps

/-!  `main`: environment choice per application -/

/-- Environment choice for one application in `main`: first environment
whose lower-cased name contains the lower-cased application name, else the
first environment, with `PlaceholderEnv` when there are none at all.  The
`≠ ""` test models Python's `match or env_names[0]`. -/
def pickEnv (envKeys : List String) (app : String) : String :=
  let env_names := if envKeys = [] then ["PlaceholderEnv"] else envKeys
  match env_names.find? (fun e => pySubstr (pyLower app) (pyLower e)) with
  | some m => if m ≠ "" then m else env_names.headD ""
  | none => env_names.headD ""

/-!  `visit` on in-memory object graphs

`json.load` only produces finite trees, but `visit` receives arbitrary
in-memory Python objects, where a `children` entry can reference an
ancestor.  To analyse that case the object graph is made explicit: nodes
live on a heap and refer to their children by address.  Scalar step fields
are irrelevant to the traversal and are reduced to the node name; the four
child keys are collapsed into one child list (the traversal order across
keys does not affect termination). -/

/-- A process node in an in-memory object graph. -/
structure HNode where
  name : String
  children : List Nat

mutual
/-- `visit` on an object graph, with `fuel` bounding the recursion depth
(one unit per nested `visit` call, mirroring the Python call stack):
`none` means the traversal did not finish within that depth. -/
def visitH (heap : List HNode) (fuel : Nat) (addr : Nat) : Option (List String) :=
  match fuel with
  | 0 => none
  | fuel' + 1 =>
    match heap.get? addr with
    | none => some []
    | some nd =>
      match visitHList heap fuel' nd.children with
      | none => none
      | some rest => some (nd.name :: rest)
termination_by (fuel, 0)

/-- The child loop of `visitH`, at the same recursion depth. -/
def visitHList (heap : List HNode) (fuel : Nat) (addrs : List Nat) : Option (List String) :=
  match addrs with
  | [] => some []
  | a :: rest =>
    match visitH heap fuel a with
    | none => none
    | some s1 =>
      match visitHList heap fuel rest with
      | none => none
      | some s2 => some (s1 ++ s2)
termination_by (fuel, addrs.length + 1)
end

/-!  Helper lemmas -/

theorem dedupSteps_sublist (seen : List (String × String)) (l : List Step) :
    (dedupSteps seen l).Sublist l := by
  induction l generalizing seen with
  | nil => simp [dedupSteps]
  | cons s rest ih =>
    by_cases h : stepKey s ∈ seen
    · simp only [dedupSteps, if_pos h]
      exact (ih seen).cons s
    · simp only [dedupSteps, if_neg h]
      exact (ih _).cons₂ s

theorem dedupSteps_key_not_mem_seen {seen : List (String × String)} {l : List Step} :
    ∀ t ∈ dedupSteps seen l, stepKey t ∉ seen := by
  induction l generalizing seen with
  | nil => simp [dedupSteps]
  | cons s rest ih =>
    intro t ht
    by_cases h : stepKey s ∈ seen
    · rw [dedupSteps, if_pos h] at ht
      exact ih t ht
    · rw [dedupSteps, if_neg h] at ht
      rcases List.mem_cons.mp ht with rfl | ht'
      · exact h
      · intro hmem
        exact ih t ht' (List.mem_cons_of_mem _ hmem)

theorem dedupSteps_pairwise (seen : List (String × String)) (l : List Step) :
    (dedupSteps seen l).Pairwise (fun a b => stepKey a ≠ stepKey b) := by
  induction l generalizing seen with
  | nil => simp [dedupSteps]
  | cons s rest ih =>
    by_cases h : stepKey s ∈ seen
    · simpa only [dedupSteps, if_pos h] using ih seen
    · rw [dedupSteps, if_neg h]
      refine List.Pairwise.cons ?_ (ih _)
      intro t ht he
      exact dedupSteps_key_not_mem_seen t ht (he ▸ List.mem_cons_self _ _)

theorem dedupSteps_covers (seen : List (String × String)) (l : List Step) :
    ∀ s ∈ l, stepKey s ∈ seen ∨ ∃ t ∈ dedupSteps seen l, stepKey t = stepKey s := by
  induction l generalizing seen with
  | nil => simp
  | cons s0 rest ih =>
    intro s hs
    by_cases h : stepKey s0 ∈ seen
    · rcases List.mem_cons.mp hs with rfl | hs'
      · exact Or.inl h
      · rcases ih seen s hs' with hin | ⟨t, ht, he⟩
        · exact Or.inl hin
        · exact Or.inr ⟨t, by rw [dedupSteps, if_pos h]; exact ht, he⟩
    · rcases List.mem_cons.mp hs with heq | hs'
      · exact Or.inr ⟨s0, by rw [dedupSteps, if_neg h]; exact List.mem_cons_self _ _, by rw [heq]⟩
      · rcases ih (stepKey s0 :: seen) s hs' with hin | ⟨t, ht, he⟩
        · rcases List.mem_cons.mp hin with he2 | hin2
          · exact Or.inr ⟨s0, by rw [dedupSteps, if_neg h]; exact List.mem_cons_self _ _, he2.symm⟩
          · exact Or.inl hin2
        · exact Or.inr ⟨t, by rw [dedupSteps, if_neg h]; exact List.mem_cons_of_mem _ ht, he⟩

theorem lookupA_dictSet_self {α : Type} (m : List (String × α)) (k : String) (v : α) :
    lookupA (dictSet m k v) k = some v := by
  induction m with
  | nil => simp [dictSet, lookupA]
  | cons p rest ih =>
    obtain ⟨k', v'⟩ := p
    by_cases h : k' = k
    · simp [dictSet, h, lookupA]
    · simp [dictSet, h, lookupA, ih]

theorem dictSetdefault_of_isSome {α : Type} {m : List (String × α)} {k : String} (v : α)
    (h : (lookupA m k).isSome = true) : dictSetdefault m k v = m := by
  simp [dictSetdefault, h]

theorem classify_append_single (items : List Item) (x : Item) :
    classify (items ++ [x]) = classifyStep (classify items) x := by
  simp [classify, List.foldl_append]

/-!  C1: explicit-field priority in ownership resolution -/

/-- C1 (counterexample): a process carrying both a string-valued
`application` field and a string-valued `component` field is owned by the
named *component*, not the application: the component loop in `main` runs
unconditionally after the application loop and overwrites its result. -/
theorem ownerOf_C1_counterexample :
    ownerOf [("application", JValue.str "A"), ("component", JValue.str "C")] "p" ["A"] ["C"]
      = some (Owner.comp "C") ∧ Owner.comp "C" ≠ Owner.app "A" := by
  exact ⟨rfl, by simp⟩

/-- C1 (amended): the explicit `component`/`componentName` fields take
priority: whenever one of them holds a string, the process is owned by that
named component regardless of any `application`/`applicationName` field;
only when neither component field holds a string does a string-valued
`application`/`applicationName` field make the owner that named
application. -/
theorem ownerOf_C1_amended :
    (∀ (pobj : JObj) (pname : String) (apps comps : List String) (c : String),
        firstStrField pobj ["component", "componentName"] = some c →
        ownerOf pobj pname apps comps = some (Owner.comp c)) ∧
    (∀ (pobj : JObj) (pname : String) (apps comps : List String) (a : String),
        firstStrField pobj ["component", "componentName"] = none →
        firstStrField pobj ["application", "applicationName"] = some a →
        ownerOf pobj pname apps comps = some (Owner.app a)) := by
  constructor
  · intro pobj pname apps comps c h
    simp only [ownerOf, h]
  · intro pobj pname apps comps a h1 h2
    simp only [ownerOf, h1, h2]

/-- C1 witness: both branches of the amended claim at concrete inputs. -/
theorem ownerOf_C1_amended_witness :
    ownerOf [("componentName", JValue.str "C")] "p" [] [] = some (Owner.comp "C") ∧
    ownerOf [("applicationName", JValue.str "A")] "p" [] [] = some (Owner.app "A") :=
  ⟨ownerOf_C1_amended.1 _ "p" [] [] "C" (by rfl),
   ownerOf_C1_amended.2 _ "p" [] [] "A" (by rfl) (by rfl)⟩

/-!  C8: the association loop is total and drops unowned processes -/

/-- C8: the association loop of `main` is a total function (it produces a
result on every input collection), and a process for which `ownerOf`
resolves no owner — neither via the explicit fields nor via the substring
heuristic — contributes nothing: the accumulated application and component
step maps are exactly those computed without that process. -/
theorem associate_C8 :
    (∀ (apps comps : List String) (procs : List (String × JObj)),
        ∃ r : Assoc, associate apps comps procs = r) ∧
    (∀ (apps comps : List String) (pre suf : List (String × JObj)) (p : String × JObj),
        ownerOf p.2 p.1 apps comps = none →
        associate apps comps (pre ++ p :: suf) = associate apps comps (pre ++ suf)) := by
  constructor
  · intro apps comps procs
    exact ⟨_, rfl⟩
  · intro apps comps pre suf p h
    unfold associate
    rw [show pre ++ p :: suf = (pre ++ [p]) ++ suf by simp, List.foldl_append,
        List.foldl_append, List.foldl_append]
    congr 1
    simp only [List.foldl_cons, List.foldl_nil]
    simp [assocStep, h]

/-- C8 witness: a concrete process with no explicit owner fields whose name
and serialized text mention no known application or component. -/
theorem associate_C8_witness :
    associate ["alpha"] ["beta"] ([] ++ ("proc1", [("name", JValue.str "proc1")]) :: []) =
      associate ["alpha"] ["beta"] ([] ++ []) :=
  associate_C8.2 ["alpha"] ["beta"] [] [] ("proc1", [("name", JValue.str "proc1")]) (by rfl)

/-!  C2: name collisions within one kind bucket -/

/-- C2 (counterexample): two environment objects resolving to the same name
`"E"`; the environments bucket keeps the *first* object (the source uses
`environments.setdefault(name, obj)`), while the claim says the later one
replaces it. -/
theorem classify_C2_counterexample :
    (classify [⟨"a.json", [("environment", JValue.str "E"), ("v", JValue.num 1)], "u1"⟩,
               ⟨"b.json", [("environment", JValue.str "E"), ("v", JValue.num 2)], "u2"⟩]).environments
      = [("E", [("environment", JValue.str "E"), ("v", JValue.num 1)])] ∧
    ([("environment", JValue.str "E"), ("v", JValue.num 1)] : JObj)
      ≠ [("environment", JValue.str "E"), ("v", JValue.num 2)] := by
  refine ⟨rfl, ?_⟩
  intro h
  simp at h

/-- C2 (amended): within the name-keyed kind buckets, a later object with a
colliding resolved name silently overwrites the earlier one only for
applications; for components *and environments* the first occurrence wins;
processes are accumulated in a list, so nothing is overwritten there. -/
theorem classify_C2_amended :
    (∀ (items : List Item) (x : Item),
        detect_kind x.obj x.path = "application" →
        lookupA (classify (items ++ [x])).applications (pull_name x.obj x.uuidHex)
          = some x.obj) ∧
    (∀ (items : List Item) (x : Item),
        detect_kind x.obj x.path = "component" →
        (lookupA (classify items).components (pull_name x.obj x.uuidHex)).isSome = true →
        (classify (items ++ [x])).components = (classify items).components) ∧
    (∀ (items : List Item) (x : Item),
        detect_kind x.obj x.path = "environment" →
        (lookupA (classify items).environments (pull_name x.obj x.uuidHex)).isSome = true →
        (classify (items ++ [x])).environments = (classify items).environments) ∧
    (∀ (items : List Item) (x : Item),
        detect_kind x.obj x.path = "process" →
        (classify (items ++ [x])).processes
          = (classify items).processes ++ [(pull_name x.obj x.uuidHex, x.obj)]) := by
  refine ⟨?_, ?_, ?_, ?_⟩
  · intro items x h
    rw [classify_append_single]
    simp [classifyStep, h, lookupA_dictSet_self]
  · intro items x h hs
    rw [classify_append_single]
    simp [classifyStep, h, dictSetdefault_of_isSome _ hs]
  · intro items x h hs
    rw [classify_append_single]
    simp [classifyStep, h, dictSetdefault_of_isSome _ hs]
  · intro items x h
    rw [classify_append_single]
    simp [classifyStep, h]

/-- C2 witness: the amended behaviour at concrete inputs — a second
application named `"A"` overwrites, a second environment named `"E"` does
not replace the first. -/
theorem classify_C2_amended_witness :
    lookupA (classify ([⟨"x.json", [("objectType", JValue.str "application"), ("name", JValue.str "A"), ("v", JValue.num 1)], "u0"⟩]
        ++ [⟨"y.json", [("objectType", JValue.str "application"), ("name", JValue.str "A"), ("v", JValue.num 2)], "u1"⟩])).applications "A"
      = some [("objectType", JValue.str "application"), ("name", JValue.str "A"), ("v", JValue.num 2)] ∧
    (classify ([⟨"a.json", [("environment", JValue.str "E"), ("v", JValue.num 1)], "u2"⟩]
        ++ [⟨"b.json", [("environment", JValue.str "E"), ("v", JValue.num 2)], "u3"⟩])).environments
      = (classify [⟨"a.json", [("environment", JValue.str "E"), ("v", JValue.num 1)], "u2"⟩]).environments :=
  ⟨classify_C2_amended.1 _ _ (by rfl),
   classify_C2_amended.2.2.1 _ _ (by rfl) (by rfl)⟩

/-!  C3: name resolution -/

/-- C3 (counterexample): an object with no usable top-level name key but a
nested mapping whose `name` is the empty string; `pull_name` returns that
empty string, so the resolved display name is *not* always non-empty. -/
theorem pull_name_C3_counterexample :
    pull_name [("meta", JValue.obj [("name", JValue.str "")])] "abcdef" = "" := by
  rfl

theorem firstStrKeyNonEmpty_strip_ne {obj : JObj} {keys : List String} {s : String}
    (h : firstStrKeyNonEmpty obj keys = some s) : pyStrip s ≠ "" := by
  induction keys with
  | nil => simp [firstStrKeyNonEmpty] at h
  | cons k rest ih =>
    simp only [firstStrKeyNonEmpty] at h
    split at h
    next s' heq =>
      split at h
      next hne =>
        cases h
        exact hne
      next => exact ih h
    next => exact ih h

theorem string_append_unnamed_ne_empty (u : String) : "unnamed-" ++ u ≠ "" := by
  intro h
  have hlen := congrArg String.length h
  rw [String.length_append] at hlen
  have h8 : "unnamed-".length = 8 := rfl
  have h0 : ("" : String).length = 0 := rfl
  omega

/-- C3 (amended): `pull_name` returns the value of the first key among
`name`, `application`, `applicationName`, `component`, `componentName`,
`environment`, `environmentName`, `displayName` whose value is a string that
is non-empty after stripping whitespace (and that value is then non-empty);
if none qualifies it returns a string-valued `name` found one level down
inside a nested mapping value — *without* any emptiness check, so the
result may be empty there; otherwise it returns the synthesized
`unnamed-…` fallback, which is always non-empty. -/
theorem pull_name_C3_amended :
    (∀ (obj : JObj) (u s : String),
        firstStrKeyNonEmpty obj nameKeys = some s →
        pull_name obj u = s ∧ s ≠ "") ∧
    (∀ (obj : JObj) (u s : String),
        firstStrKeyNonEmpty obj nameKeys = none → nestedName obj = some s →
        pull_name obj u = s) ∧
    (∀ (obj : JObj) (u : String),
        firstStrKeyNonEmpty obj nameKeys = none → nestedName obj = none →
        pull_name obj u = "unnamed-" ++ u ∧ pull_name obj u ≠ "") := by
  refine ⟨?_, ?_, ?_⟩
  · intro obj u s h
    refine ⟨by simp [pull_name, h], ?_⟩
    intro he
    exact firstStrKeyNonEmpty_strip_ne h (by rw [he]; rfl)
  · intro obj u s h1 h2
    simp [pull_name, h1, h2]
  · intro obj u h1 h2
    have he : pull_name obj u = "unnamed-" ++ u := by simp [pull_name, h1, h2]
    exact ⟨he, by rw [he]; exact string_append_unnamed_ne_empty u⟩

/-- C3 witness: the three branches of the amended claim at concrete
inputs. -/
theorem pull_name_C3_amended_witness :
    (pull_name [("displayName", JValue.str "D")] "aaaaaa" = "D" ∧ "D" ≠ "") ∧
    pull_name [("meta", JValue.obj [("name", JValue.str "N")])] "bbbbbb" = "N" ∧
    (pull_name [("x", JValue.num 3)] "cccccc" = "unnamed-" ++ "cccccc" ∧
      pull_name [("x", JValue.num 3)] "cccccc" ≠ "") :=
  ⟨pull_name_C3_amended.1 _ "aaaaaa" "D" (by rfl),
   pull_name_C3_amended.2.1 _ "bbbbbb" "N" (by rfl) (by rfl),
   pull_name_C3_amended.2.2 _ "cccccc" (by rfl) (by rfl)⟩

/-!  C4: classifier layer priority -/

/-- C4: `detect_kind` applies its three layers in strict priority order —
whenever the declared-type fields produce a kind, that kind is the result
for *every* path, so a declared type beats any path hint; when they produce
nothing, a path hint wins.  Concretely, `{"objectType": "Component"}` at a
path containing `environments` classifies as component. -/
theorem detect_kind_C4 :
    (∀ (obj : JObj) (path : String) (k : String),
        kindFromTypeFields obj typeKeys = some k → detect_kind obj path = k) ∧
    (∀ (obj : JObj) (path : String) (k : String),
        kindFromTypeFields obj typeKeys = none →
        kindFromPath (pyLower path) = some k → detect_kind obj path = k) ∧
    detect_kind [("objectType", JValue.str "Component")] "/export/environments/foo.json"
      = "component" := by
  refine ⟨?_, ?_, by rfl⟩
  · intro obj path k h
    simp [detect_kind, h]
  · intro obj path k h1 h2
    simp [detect_kind, h1, h2]

/-- C4 witness: layer 1 beating an `applications` path hint, and a path
hint applying when no declared-type field matches. -/
theorem detect_kind_C4_witness :
    detect_kind [("objectType", JValue.str "Component")] "/export/applications/foo.json"
      = "component" ∧
    detect_kind [("x", JValue.num 1)] "/export/environments/foo.json" = "environment" :=
  ⟨detect_kind_C4.1 _ _ _ (by rfl), detect_kind_C4.2.1 _ _ _ (by rfl) (by rfl)⟩

/-!  C7: service derivation fallback -/

/-- C7: service derivation collects names from the list-valued
`components`/`componentList`/`applicationComponents` keys; whenever the
collected list is empty — in particular when none of the three keys is
present — the application's service list is exactly the list of all known
component names, and otherwise it is the collected list itself. -/
theorem app_services_C7 :
    (∀ (aobj : JObj) (allCompNames : List String),
        collectedComps aobj compListKeys = [] →
        app_services aobj allCompNames = allCompNames) ∧
    (∀ (aobj : JObj) (allCompNames : List String),
        pyGet aobj "components" = none → pyGet aobj "componentList" = none →
        pyGet aobj "applicationComponents" = none →
        app_services aobj allCompNames = allCompNames) ∧
    (∀ (aobj : JObj) (allCompNames : List String),
        collectedComps aobj compListKeys ≠ [] →
        app_services aobj allCompNames = collectedComps aobj compListKeys) ∧
    app_services [("name", JValue.str "app")] ["A", "B"] = ["A", "B"] := by
  refine ⟨?_, ?_, ?_, by rfl⟩
  · intro aobj allCompNames h
    simp [app_services, h]
  · intro aobj allCompNames h1 h2 h3
    simp [app_services, collectedComps, compListKeys, h1, h2, h3]
  · intro aobj allCompNames h
    simp [app_services, h]

/-- C7 witness: the all-components fallback with none of the three keys
present, and the collected list winning when non-empty. -/
theorem app_services_C7_witness :
    app_services [("name", JValue.str "app1")] ["A", "B"] = ["A", "B"] ∧
    app_services [("components", JValue.arr [JValue.str "C1"])] ["A", "B"] = ["C1"] :=
  ⟨app_services_C7.2.1 _ ["A", "B"] (by rfl) (by rfl) (by rfl),
   app_services_C7.2.2.1 _ ["A", "B"] (by simp [collectedComps, compListKeys,
     pyGet, collectFromList, compEntryNames])⟩

/-!  C6: environment choice per application -/

theorem pySubstr_empty_hay {n : String} (h : pySubstr n "" = true) : n = "" := by
  have h2 : n.data <:+: ([] : List Char) := by
    have := of_decide_eq_true h
    simpa using this
  have h3 : n.data = [] := List.infix_nil.mp h2
  cases n
  simp_all

theorem pySubstr_empty_needle (hay : String) : pySubstr "" hay = true := by
  simp [pySubstr]

theorem pickEnv_of_find?_some {envKeys : List String} {app e : String}
    (h : envKeys.find? (fun x => pySubstr (pyLower app) (pyLower x)) = some e) :
    pickEnv envKeys app = e := by
  have hne : envKeys ≠ [] := by
    intro h0
    subst h0
    simp at h
  by_cases he : e = ""
  · subst he
    have hpe : pySubstr (pyLower app) (pyLower "") = true := by
      have h' := List.find?_some h
      exact h'
    have happ : pyLower app = "" := pySubstr_empty_hay hpe
    cases envKeys with
    | nil => exact absurd rfl hne
    | cons x rest =>
      have hx : pySubstr (pyLower app) (pyLower x) = true := by
        rw [happ]
        exact pySubstr_empty_needle _
      have hfx : (x :: rest).find? (fun y => pySubstr (pyLower app) (pyLower y)) = some x := by
        simp [List.find?, hx]
      rw [hfx] at h
      injection h with hx0
      subst hx0
      simp [pickEnv, hfx]
  · simp [pickEnv, hne, h, he]

/-- C6: for every application, the chosen environment is the first known
environment whose lower-cased name contains the lower-cased application
name; when no environment name contains it, the first known environment in
iteration order; and with no environments at all, the fixed placeholder
`PlaceholderEnv`.  With environments `["prod-east", "prod-west"]` and
application `"east-app"` the choice is `"prod-east"`. -/
theorem pickEnv_C6 :
    (∀ (envKeys : List String) (app e : String),
        envKeys.find? (fun x => pySubstr (pyLower app) (pyLower x)) = some e →
        pickEnv envKeys app = e) ∧
    (∀ (envKeys : List String) (app : String),
        envKeys ≠ [] →
        envKeys.find? (fun x => pySubstr (pyLower app) (pyLower x)) = none →
        pickEnv envKeys app = envKeys.headD "") ∧
    (∀ app : String, pickEnv [] app = "PlaceholderEnv") ∧
    pickEnv ["prod-east", "prod-west"] "east-app" = "prod-east" := by
  refine ⟨fun _ _ _ h => pickEnv_of_find?_some h, ?_, ?_, by rfl⟩
  · intro envKeys app h1 h2
    simp [pickEnv, h1, h2]
  · intro app
    by_cases hp : pySubstr (pyLower app) (pyLower "PlaceholderEnv") = true
    · simp [pickEnv, List.find?, hp]
    · simp [pickEnv, List.find?, hp]

/-- C6 witness: a substring match selecting the first containing
environment, and the first-environment default when nothing matches. -/
theorem pickEnv_C6_witness :
    pickEnv ["prod-east"] "prod" = "prod-east" ∧ pickEnv ["alpha", "beta"] "zzz" = "alpha" :=
  ⟨pickEnv_C6.1 ["prod-east"] "prod" "prod-east" (by rfl),
   pickEnv_C6.2.1 ["alpha", "beta"] "zzz" (by simp) (by rfl)⟩

/-!  C5: dedup of flattened steps -/

/-- C5: the flattened output of a process contains no two step descriptors
with the same `(name, canonically-serialized properties)` pair; it is a
subsequence of the traversal order (so first-occurrence order is
preserved) that still covers the key of every traversed step; two
identically-named steps with identical properties collapse to a single
descriptor while two steps with the same name but different properties
both remain. -/
theorem flatten_C5 :
    (∀ obj : JObj,
        (flatten_process_steps obj).Pairwise (fun a b => stepKey a ≠ stepKey b)) ∧
    (∀ obj : JObj, (flatten_process_steps obj).Sublist (rawSteps obj)) ∧
    (∀ (obj : JObj) (s : Step), s ∈ rawSteps obj →
        ∃ t ∈ flatten_process_steps obj, stepKey t = stepKey s) ∧
    flatten_process_steps [("steps", JValue.arr [JValue.obj [("name", JValue.str "build")],
        JValue.obj [("name", JValue.str "build")]])]
      = [⟨"build", "", []⟩] ∧
    flatten_process_steps [("steps", JValue.arr [JValue.obj [("name", JValue.str "build")],
        JValue.obj [("name", JValue.str "build"), ("properties", JValue.obj [("x", JValue.obj [])])]])]
      = [⟨"build", "", []⟩, ⟨"build", "", [("x", JValue.obj [])]⟩] := by
  refine ⟨?_, ?_, ?_, ?_, ?_⟩
  · intro obj
    exact dedupSteps_pairwise [] (rawSteps obj)
  · intro obj
    exact dedupSteps_sublist [] (rawSteps obj)
  · intro obj s hs
    rcases dedupSteps_covers [] (rawSteps obj) s hs with h | h
    · simp at h
    · exact h
  · simp [flatten_process_steps, rawSteps, visit, visitChildren, visitList, mkStep, childKeys,
      pyGet, pyOrD, truthy, pyStr, dedupSteps, stepKey, dumpsSorted, sortKeysDeep,
      sortKeysDeepObj, sortKeysDeepList, sortByKey, insertByKey, dumps, dumpsObj, dumpsList,
      jsonQuote, jsonEscapeChar, String.join]
  · simp [flatten_process_steps, rawSteps, visit, visitChildren, visitList, mkStep, childKeys,
      pyGet, pyOrD, truthy, pyStr, dedupSteps, stepKey, dumpsSorted, sortKeysDeep,
      sortKeysDeepObj, sortKeysDeepList, sortByKey, insertByKey, dumps, dumpsObj, dumpsList,
      jsonQuote, jsonEscapeChar, String.join, show String.singleton 'x' = "x" from rfl]

/-- C5 witness: the key-coverage conjunct at a concrete process — the
traversed step is represented in the deduplicated output. -/
theorem flatten_C5_witness :
    ∃ t ∈ flatten_process_steps [("steps", JValue.arr [JValue.obj [("name", JValue.str "build")]])],
      stepKey t = stepKey ⟨"build", "", []⟩ :=
  flatten_C5.2.2.1 [("steps", JValue.arr [JValue.obj [("name", JValue.str "build")]])]
    ⟨"build", "", []⟩
    (by simp [rawSteps, visit, visitChildren, visitList, mkStep, childKeys, pyGet, pyOrD,
      truthy, pyStr])

/-!  C10: entry-point selection guards -/

theorem rawSteps_default {obj : JObj}
    (h1 : ∀ d, pyGet obj "rootActivity" ≠ some (JValue.obj d))
    (h2 : ∀ xs, pyGet obj "steps" ≠ some (JValue.arr xs))
    (h3 : ∀ xs, pyGet obj "activities" ≠ some (JValue.arr xs)) :
    rawSteps obj = visit (JValue.obj obj) := by
  unfold rawSteps
  split
  next d hd => exact absurd hd (h1 d)
  next =>
    split
    next l hl => exact absurd hl (h2 l)
    next =>
      split
      next l hl => exact absurd hl (h3 l)
      next => rfl

/-- C10: the flattener's entry-point selection is guarded by value shape —
a `rootActivity` whose value is not a mapping is ignored in favour of a
list-valued `steps`; with `steps` present but not a list, a list-valued
`activities` is used; with no usable entry point at all, the object itself
is visited, its own descriptor emitted first; and non-mapping nodes are
skipped by `visit` without contributing a descriptor. -/
theorem flatten_C10 :
    (∀ (obj : JObj) (v : JValue) (l : List JValue),
        pyGet obj "rootActivity" = some v → (∀ d, v ≠ JValue.obj d) →
        pyGet obj "steps" = some (JValue.arr l) →
        flatten_process_steps obj = dedupSteps [] (visitList l)) ∧
    (∀ (obj : JObj) (v w : JValue) (l : List JValue),
        pyGet obj "rootActivity" = some v → (∀ d, v ≠ JValue.obj d) →
        pyGet obj "steps" = some w → (∀ xs, w ≠ JValue.arr xs) →
        pyGet obj "activities" = some (JValue.arr l) →
        flatten_process_steps obj = dedupSteps [] (visitList l)) ∧
    (∀ obj : JObj,
        (∀ d, pyGet obj "rootActivity" ≠ some (JValue.obj d)) →
        (∀ xs, pyGet obj "steps" ≠ some (JValue.arr xs)) →
        (∀ xs, pyGet obj "activities" ≠ some (JValue.arr xs)) →
        flatten_process_steps obj = dedupSteps [] (visit (JValue.obj obj)) ∧
        (visit (JValue.obj obj)).head? = some (mkStep obj)) ∧
    (∀ v : JValue, v.isDict = false → visit v = []) := by
  refine ⟨?_, ?_, ?_, ?_⟩
  · intro obj v l h1 h2 h3
    unfold flatten_process_steps rawSteps
    rw [h1, h3]
    cases v <;>
      first
      | exact absurd rfl (h2 _)
      | simp
  · intro obj v w l h1 h2 h3 h4 h5
    unfold flatten_process_steps rawSteps
    rw [h1, h3, h5]
    cases v <;> cases w <;>
      first
      | exact absurd rfl (h2 _)
      | exact absurd rfl (h4 _)
      | simp
  · intro obj h1 h2 h3
    refine ⟨?_, ?_⟩
    · unfold flatten_process_steps
      rw [rawSteps_default h1 h2 h3]
    · simp only [visit]
      rfl
  · intro v h
    cases v <;> simp_all [JValue.isDict, visit]

/-- C10 witness: a non-dict `rootActivity` falling through to a `steps`
list, the default single-implicit-step entry, and a skipped non-mapping
node, all at concrete inputs. -/
theorem flatten_C10_witness :
    flatten_process_steps [("rootActivity", JValue.str "x"), ("steps", JValue.arr [])]
      = dedupSteps [] (visitList []) ∧
    (flatten_process_steps [("name", JValue.str "only")]
        = dedupSteps [] (visit (JValue.obj [("name", JValue.str "only")])) ∧
      (visit (JValue.obj [("name", JValue.str "only")])).head?
        = some (mkStep [("name", JValue.str "only")])) ∧
    visit (JValue.str "notadict") = [] :=
  ⟨flatten_C10.1 _ _ [] (by rfl) (by intro d h; cases h) (by rfl),
   flatten_C10.2.2.1 _ (by intro d h; cases h) (by intro xs h; cases h) (by intro xs h; cases h),
   flatten_C10.2.2.2 _ (by rfl)⟩

/-!  C9: termination of the flattener -/

/-- C9 (refutation of the cyclic case): on the in-memory object graph with
a single node whose `children` list references the node itself — the
injected back-reference fixture — the traversal of `visit` exceeds every
finite recursion depth: `visitH` returns `none` for all fuel values, so the
unbounded Python recursion never returns (CPython raises
`RecursionError`), contradicting the claim that `flatten_process_steps`
terminates with a finite sequence on such input.  (On every JSON tree —
all that `json.load` can produce — the traversal does terminate; the Lean
functions `visit`/`flatten_process_steps` above are total.) -/
theorem visitH_cyclic_C9 (fuel : Nat) : visitH [⟨"a", [0]⟩] fuel 0 = none := by
  induction fuel with
  | zero => simp [visitH]
  | succ n ih => simp [visitH, visitHList, List.get?, ih]

end UcdToHarness
